import Mathlib

/-!
A shallow embedding of `src/dirextdiff.py`, a staging harness that compares
two files or directory trees with an external tool: it enumerates differing
files (via `diff -r -q` output parsing), copies them into a transient
staging directory pair, invokes an external command on the staging roots,
copies every staged file back over its original location, and removes the
staging root on every exit path (`with tempfile.TemporaryDirectory`).

Modelling conventions:
* A `Path` is a list of components; all paths are taken to be normalized and
  absolute, so `os.path.abspath` is the identity on them and `os.path.join`
  is list append.  `os.path.split`/`dirname` are `dropLast`/last component.
* The filesystem is explicit: an association list of files (a later entry
  shadows an earlier one for reads) plus a list of existing directories.
* The external recursive comparator (`diff -r -q`, an external collaborator
  in the spec) is an oracle: its exit status `dcode` and raw output `dout`
  are parameters of the run.
* The external tool (`subprocess.call`) is an oracle `FS → FS × Except Err Int`:
  it may transform the filesystem arbitrarily and either return an exit
  status (which the code ignores) or fail to launch (raising).
* `tempfile.TemporaryDirectory` is modelled by a caller-chosen fresh path
  `tmp`; the `with` block guarantees `removeTree` runs on every exit path,
  after which the original outcome (error or success) is propagated.
* `os.makedirs(..., exist_ok=True)` is modelled as total: it records every
  level of the requested directory; pre-existing levels are skipped and
  never an error.
-/

namespace Dirextdiff

/-- A filesystem path as a list of name components (normalized, absolute). -/
abbrev Path := List String

/-- File contents as a list of bytes. -/
abbrev Content := List Nat

/-- Decidable prefix test on lists (used for "lies under the staging root"). -/
def isPref {α : Type} [DecidableEq α] : List α → List α → Bool
| [], _ => true
| _ :: _, [] => false
| x :: xs, y :: ys => decide (x = y) && isPref xs ys

/-- The explicit filesystem: files as an association list (reads see the
most recent entry for a path) and the set of existing directories. -/
structure FS where
  files : List (Path × Content)
  dirs : List Path
deriving DecidableEq

/-- First-match lookup in the file association list. -/
def lookupF : List (Path × Content) → Path → Option Content
| [], _ => none
| e :: l, p => if e.1 = p then some e.2 else lookupF l p

/-- Read the contents of the file at `p`, if any. -/
def getFile (fs : FS) (p : Path) : Option Content :=
  lookupF fs.files p

/-- Write contents `c` at path `p` (overwriting any previous file there). -/
def setFile (fs : FS) (p : Path) (c : Content) : FS :=
  ⟨(p, c) :: fs.files, fs.dirs⟩

/-- `os.path.isfile`. -/
def isfile (fs : FS) (p : Path) : Bool :=
  (getFile fs p).isSome

/-- Errors raised by the program, mirroring the Python exceptions. -/
inductive Err where
  /-- `ValueError('{} is a file but {} is a directory')` — `a` is the file,
  `b` the directory. -/
  | fileButDir (a b : Path)
  /-- `ValueError('{} is a directory but {} is a file')` — `a` is the
  directory, `b` the file. -/
  | dirButFile (a b : Path)
  /-- `subprocess.CalledProcessError` re-raised from `diff -r -q` for an
  exit status other than 0 or 1. -/
  | comparisonFailure (code : Nat)
  /-- `os.mkdir` failure (target exists or parent missing). -/
  | mkdirFail (p : Path)
  /-- `shutil.copy` failure (unreadable source or missing destination
  directory). -/
  | copyFail (src dst : Path)
deriving DecidableEq

/-- One element of `changed_files`: `(afile, bfile, arel, brel)` — the two
absolute paths and the two root-relative paths. -/
structure Entry where
  afile : Path
  bfile : Path
  arel : Path
  brel : Path
deriving DecidableEq

/-- `os.path.abspath`: the identity under the convention that all modelled
paths are already normalized and absolute. -/
def abspath (p : Path) : Path := p

/-- Length of the longest common prefix of two component paths. -/
def commonPrefixLen : Path → Path → Nat
| x :: xs, y :: ys => if x = y then commonPrefixLen xs ys + 1 else 0
| _, _ => 0

/-- The `..` path component. -/
def ptDotDot : String := ".."

/-- `os.path.relpath p base` on normalized absolute component paths: strip
the common prefix and climb with `..` for the remaining base components. -/
def relpath (p base : Path) : Path :=
  let k := commonPrefixLen p base
  List.replicate (base.length - k) (ptDotDot) ++ p.drop k

/-- Split a character list at every `/` (keeping empty pieces, like
`str.split('/')`). -/
def splitSlash : List Char → List (List Char)
| [] => [[]]
| c :: cs =>
  match splitSlash cs with
  | [] => [[]]
  | l :: ls => if c = '/' then [] :: l :: ls else (c :: l) :: ls

/-- Split a raw path string into components ( `/`-separated; empty
components vanish under the normalized-path convention). -/
def splitPath (s : List Char) : Path :=
  ((splitSlash s).map String.mk).filter (fun t => decide (t ≠ ("")))

/-- `str.split('\n')` (Python semantics: keeps empty pieces, `''` gives `['']`). -/
def splitNl : List Char → List (List Char)
| [] => [[]]
| c :: cs =>
  match splitNl cs with
  | [] => [[]]
  | l :: ls => if c = '\n' then [] :: l :: ls else (c :: l) :: ls

/-- The literal `"Files "` opening the comparator's differ lines. -/
def filesLit : List Char := "Files ".toList

/-- The literal `" and "` between the two paths of a differ line. -/
def andLit : List Char := " and ".toList

/-- The literal `" differ"` closing the matched part of a differ line. -/
def differLit : List Char := " differ".toList

/-- Greedy search for the second group of `re.match('Files (.+) and (.+) differ', line)`:
the longest nonempty `g2` such that `" differ"` follows it in `rest`.
The fuel argument is the candidate length, started at `rest.length`. -/
def findG2 (rest : List Char) : Nat → Option (List Char)
| 0 => none
| Nat.succ j =>
  if isPref differLit (rest.drop (j + 1)) then some (rest.take (j + 1))
  else findG2 rest j

/-- Greedy backtracking for the first group: the longest nonempty `g1` such
that `" and "` follows it in `s` and the remainder still matches
`(.+) differ`; mirrors the regex engine trying longer `g1` first. -/
def findSplit (s : List Char) : Nat → Option (List Char × List Char)
| 0 => none
| Nat.succ i =>
  if isPref andLit (s.drop (i + 1)) then
    match findG2 (s.drop (i + 1 + 5)) (s.drop (i + 1 + 5)).length with
    | some g2 => some (s.take (i + 1), g2)
    | none => findSplit s i
  else findSplit s i

/-- `re.match('Files (.+) and (.+) differ', line)`: anchored at the start of
the line, trailing characters allowed, both groups greedy (lines never
contain a newline, so `.` matches every character). Returns the two groups. -/
def reMatchFilesDiffer (line : List Char) : Option (List Char × List Char) :=
  if isPref filesLit line then
    findSplit (line.drop 6) (line.drop 6).length
  else none

/-- Build the `changed_files` entry for a matched differ line: absolute
paths of both groups and their paths relative to roots `a` and `b`. -/
def mkEntry (a b : Path) (g1 g2 : List Char) : Entry :=
  ⟨abspath (splitPath g1), abspath (splitPath g2),
   relpath (splitPath g1) a, relpath (splitPath g2) b⟩

/-- The `for line in diff_out.split('\n')` loop: matched lines become
entries (in order), non-matching lines are printed (in order). -/
def parseLines (a b : Path) : List (List Char) → List Entry × List (List Char)
| [] => ([], [])
| l :: ls =>
  let r := parseLines a b ls
  match reMatchFilesDiffer l with
  | some (g1, g2) => (mkEntry a b g1 g2 :: r.1, r.2)
  | none => (r.1, l :: r.2)

/-- The enumeration phase of `dirextdiff` (lines 27-56): the plain-file
branch, the two root-kind-mismatch errors, and the `diff -r -q` branch in
which exit status 0 or 1 has its output parsed and any other status
re-raises. `dcode`/`dout` are the comparator oracle's status and raw output. -/
def enumerate (fs : FS) (a b : Path) (dcode : Nat) (dout : List Char) :
    Except Err (List Entry × List (List Char)) :=
  if isfile fs a then
    if isfile fs b then
      Except.ok ([⟨abspath a, abspath b, [a.getLastD ("")], [b.getLastD ("")]⟩], [])
    else Except.error (Err.fileButDir a b)
  else if isfile fs b then Except.error (Err.dirButFile a b)
  else if dcode = 0 ∨ dcode = 1 then Except.ok (parseLines a b (splitNl dout))
  else Except.error (Err.comparisonFailure dcode)

/-- Add one directory to the filesystem if not already present. -/
def addDir (fs : FS) (p : Path) : FS :=
  if p ∈ fs.dirs then fs else ⟨fs.files, p :: fs.dirs⟩

/-- All the levels of a path, shortest first (`initsP [x, y] = [[], [x], [x, y]]`). -/
def initsP : Path → List Path
| [] => [[]]
| x :: l => [] :: (initsP l).map (fun q => x :: q)

/-- `os.makedirs(p, exist_ok=True)`: create every level of `p`; levels that
already exist are skipped and are never an error. -/
def makedirs (fs : FS) (p : Path) : FS :=
  (initsP p).foldl addDir fs

/-- `os.mkdir p`: fails if `p` already exists (as directory or file) or its
parent is missing. -/
def mkdir (fs : FS) (p : Path) : Except Err FS :=
  if p ∈ fs.dirs ∨ (getFile fs p).isSome then Except.error (Err.mkdirFail p)
  else if p.dropLast ∈ fs.dirs then Except.ok ⟨fs.files, p :: fs.dirs⟩
  else Except.error (Err.mkdirFail p)

/-- `shutil.copy src dst` (contents only): fails if the source is not a
readable file or the destination's directory does not exist. -/
def copy (fs : FS) (src dst : Path) : Except Err FS :=
  match getFile fs src with
  | none => Except.error (Err.copyFail src dst)
  | some c =>
    if dst.dropLast ∈ fs.dirs then Except.ok (setFile fs dst c)
    else Except.error (Err.copyFail src dst)

/-- `shutil.rmtree`-style teardown of the `with` block: drop every file
whose path lies under `tmp`. -/
def dropTree : List (Path × Content) → Path → List (Path × Content)
| [], _ => []
| e :: l, tmp => if isPref tmp e.1 then dropTree l tmp else e :: dropTree l tmp

/-- Teardown for directories: drop every directory lying under `tmp`. -/
def dropDirs : List Path → Path → List Path
| [], _ => []
| d :: l, tmp => if isPref tmp d then dropDirs l tmp else d :: dropDirs l tmp

/-- Removal of the transient staging root `tmp` and everything below it
(the exit action of `with tempfile.TemporaryDirectory() as tmp`). -/
def removeTree (fs : FS) (tmp : Path) : FS :=
  ⟨dropTree fs.files tmp, dropDirs fs.dirs tmp⟩

/-- Lines 64-69 for one entry: `os.makedirs(dirname(join(atmp, arel)),
exist_ok=True)`, the same on the `b` side, then the two `shutil.copy`s of
the originals into the staging subtrees. A failing copy aborts with the
state reached so far. -/
def materializeEntry (atmp btmp : Path) (fs : FS) (e : Entry) : FS × Option Err :=
  match copy (makedirs (makedirs fs ((atmp ++ e.arel).dropLast))
      ((btmp ++ e.brel).dropLast)) e.afile (atmp ++ e.arel) with
  | Except.error er =>
    (makedirs (makedirs fs ((atmp ++ e.arel).dropLast))
      ((btmp ++ e.brel).dropLast), some er)
  | Except.ok fs3 =>
    match copy fs3 e.bfile (btmp ++ e.brel) with
    | Except.error er => (fs3, some er)
    | Except.ok fs4 => (fs4, none)

/-- The staging loop over `changed_files` (lines 63-69); the first failure
aborts the loop, keeping the partially-staged state. -/
def materialize (atmp btmp : Path) : FS → List Entry → FS × Option Err
| fs, [] => (fs, none)
| fs, e :: rest =>
  match materializeEntry atmp btmp fs e with
  | (fs1, some er) => (fs1, some er)
  | (fs1, none) => materialize atmp btmp fs1 rest

/-- Lines 74-75 for one entry: copy the staged `a`-side file back over the
original `afile`, then the staged `b`-side file back over `bfile`. A
failing copy aborts with the state reached so far. -/
def syncBackEntry (atmp btmp : Path) (fs : FS) (e : Entry) : FS × Option Err :=
  match copy fs (atmp ++ e.arel) e.afile with
  | Except.error er => (fs, some er)
  | Except.ok fs1 =>
    match copy fs1 (btmp ++ e.brel) e.bfile with
    | Except.error er => (fs1, some er)
    | Except.ok fs2 => (fs2, none)

/-- The sync-back loop over `changed_files` (lines 73-75); the first
failure aborts the loop, keeping the partially-synced state. -/
def syncBack (atmp btmp : Path) : FS → List Entry → FS × Option Err
| fs, [] => (fs, none)
| fs, e :: rest =>
  match syncBackEntry atmp btmp fs e with
  | (fs1, some er) => (fs1, some er)
  | (fs1, none) => syncBack atmp btmp fs1 rest

/-- The outcome of a run: the propagated error (if any), the final
filesystem, and the informational lines printed during enumeration. -/
structure RunResult where
  err : Option Err
  fs : FS
  printed : List (List Char)
deriving DecidableEq

/-- The name of the `a`-side staging subtree (`atmp = os.path.join(tmp, 'a')`). -/
def strA : String := "a"

/-- The name of the `b`-side staging subtree (`btmp = os.path.join(tmp, 'b')`). -/
def strB : String := "b"

/-- The whole of `dirextdiff(a, b, command)`: enumeration, then inside
`with tempfile.TemporaryDirectory() as tmp` the creation of the `a`/`b`
staging subtrees `atmp = tmp ++ [strA]` and `btmp = tmp ++ [strB]`,
materialization, the external tool call (`tool`, an oracle returning the
transformed filesystem and either the ignored exit status or a launch
failure), sync-back, and on every exit path from the block the removal of
`tmp` before the pending error (if any) propagates. -/
def dirextdiff (fs : FS) (a b : Path) (dcode : Nat) (dout : List Char)
    (tool : FS → FS × Except Err Int) (tmp : Path) : RunResult :=
  match enumerate fs a b dcode dout with
  | Except.error e => ⟨some e, fs, []⟩
  | Except.ok (changed, printed) =>
    match mkdir (addDir fs tmp) (tmp ++ [strA]) with
    | Except.error e => ⟨some e, removeTree (addDir fs tmp) tmp, printed⟩
    | Except.ok fs2 =>
      match mkdir fs2 (tmp ++ [strB]) with
      | Except.error e => ⟨some e, removeTree fs2 tmp, printed⟩
      | Except.ok fs3 =>
        match materialize (tmp ++ [strA]) (tmp ++ [strB]) fs3 changed with
        | (fs4, some e) => ⟨some e, removeTree fs4 tmp, printed⟩
        | (fs4, none) =>
          match tool fs4 with
          | (fs5, Except.error e) => ⟨some e, removeTree fs5 tmp, printed⟩
          | (fs5, Except.ok _) =>
            match syncBack (tmp ++ [strA]) (tmp ++ [strB]) fs5 changed with
            | (fs6, some e) => ⟨some e, removeTree fs6 tmp, printed⟩
            | (fs6, none) => ⟨none, removeTree fs6 tmp, printed⟩

/-- The pipeline up to (and including) the external tool call: the
filesystem handed to sync-back, or `none` if an earlier phase failed.
Derived composition of the phases, used to exhibit intermediate states of
concrete runs. -/
def runToTool (fs : FS) (a b : Path) (dcode : Nat) (dout : List Char)
    (tool : FS → FS × Except Err Int) (tmp : Path) : Option FS :=
  match enumerate fs a b dcode dout with
  | Except.error _ => none
  | Except.ok (changed, _) =>
    match mkdir (addDir fs tmp) (tmp ++ [strA]) with
    | Except.error _ => none
    | Except.ok fs2 =>
      match mkdir fs2 (tmp ++ [strB]) with
      | Except.error _ => none
      | Except.ok fs3 =>
        match materialize (tmp ++ [strA]) (tmp ++ [strB]) fs3 changed with
        | (_, some _) => none
        | (fs4, none) => some (tool fs4).1

/-- `Except.ok`-ness as a Bool, used to phrase "enumeration succeeded". -/
def isOkB {α β : Type} : Except α β → Bool
| Except.ok _ => true
| Except.error _ => false

/-! ### Concrete fixtures for counterexamples and witnesses -/

/-- Two directory trees `A` and `B`, both containing files `f` and `g`. -/
def c9fs : FS :=
  ⟨[(["A", "f"], [1]), (["B", "f"], [2]), (["A", "g"], [3]), (["B", "g"], [4])],
   [[], ["A"], ["B"]]⟩

/-- Comparator output reporting that both `f` and `g` differ. -/
def c9dout : List Char :=
  "Files A/f and B/f differ\nFiles A/g and B/g differ".toList

/-- An external tool that deletes the staged `a`-side copy of `f` (making
the first sync-back copy fail) and edits the staged `b`-side copy of `g`
to new contents `[9]`. -/
def c9tool (s : FS) : FS × Except Err Int :=
  (setFile ⟨s.files.filter (fun e => decide (e.1 ≠ (["T", strA, "f"] : Path))), s.dirs⟩
    (["T", strB, "g"]) ([9]), Except.ok 0)

/-- The changed-file entry for `f` in the `c9fs` scenario. -/
def c9e1 : Entry := ⟨["A", "f"], ["B", "f"], ["f"], ["f"]⟩

/-- The changed-file entry for `g` in the `c9fs` scenario. -/
def c9e2 : Entry := ⟨["A", "g"], ["B", "g"], ["g"], ["g"]⟩

/-- Two plain files `x` and `y` at the filesystem root. -/
def wfs : FS := ⟨[(["x"], [1]), (["y"], [2])], [[]]⟩

/-- The single changed-file entry for the `wfs` plain-file pair. -/
def wentry : Entry := ⟨["x"], ["y"], ["x"], ["y"]⟩

/-- A no-op external tool: returns exit status 0 without touching anything. -/
def noopTool (s : FS) : FS × Except Err Int := (s, Except.ok 0)

/-- `wfs` after creation of the staging root and the `a`-side subtree. -/
def wfs2 : FS := ⟨[(["x"], [1]), (["y"], [2])], [["T", strA], ["T"], []]⟩

/-- `wfs2` after creation of the `b`-side subtree. -/
def wfs3 : FS :=
  ⟨[(["x"], [1]), (["y"], [2])], [["T", strB], ["T", strA], ["T"], []]⟩

/-- `wfs3` after materializing the `wentry` pair into the staging subtrees. -/
def wfs4 : FS :=
  ⟨[(["T", strB, "y"], [2]), (["T", strA, "x"], [1]), (["x"], [1]), (["y"], [2])],
   [["T", strB], ["T", strA], ["T"], []]⟩

/-! ### Basic lemmas about the filesystem model -/

theorem getFile_setFile (fs : FS) (p : Path) (c : Content) (q : Path) :
    getFile (setFile fs p c) q = if p = q then some c else getFile fs q := by
  simp [getFile, setFile, lookupF]

theorem dirs_setFile (fs : FS) (p : Path) (c : Content) :
    (setFile fs p c).dirs = fs.dirs := rfl

theorem isPref_refl {α : Type} [DecidableEq α] (l : List α) : isPref l l = true := by
  induction l with
  | nil => rfl
  | cons x xs ih => simp [isPref, ih]

theorem isPref_append {α : Type} [DecidableEq α] (t s : List α) :
    isPref t (t ++ s) = true := by
  induction t with
  | nil => rfl
  | cons x xs ih => simp [isPref, ih]

theorem ne_of_isPref_false {α : Type} [DecidableEq α] {t p : List α} (s : List α)
    (h : isPref t p = false) : p ≠ t ++ s := by
  intro hc
  rw [hc, isPref_append] at h
  exact Bool.true_eq_false.mp h

theorem append_cons_ne_append_cons (t : Path) {x y : String} (l l' : Path)
    (h : x ≠ y) : t ++ x :: l ≠ t ++ y :: l' := by
  induction t with
  | nil => simp [h]
  | cons z zs ih => simpa using ih

theorem lookupF_dropTree_isPref (l : List (Path × Content)) (tmp p : Path)
    (h : isPref tmp p = true) : lookupF (dropTree l tmp) p = none := by
  induction l with
  | nil => rfl
  | cons e rest ih =>
    by_cases he : isPref tmp e.1 = true
    · simp [dropTree, he, ih]
    · have hne : e.1 ≠ p := by
        intro hc
        rw [hc, h] at he
        exact he rfl
      simp [dropTree, he, lookupF, hne, ih]

theorem lookupF_dropTree_not (l : List (Path × Content)) (tmp p : Path)
    (h : isPref tmp p = false) : lookupF (dropTree l tmp) p = lookupF l p := by
  induction l with
  | nil => rfl
  | cons e rest ih =>
    by_cases he : isPref tmp e.1 = true
    · have hne : e.1 ≠ p := by
        intro hc
        rw [hc, h] at he
        exact Bool.false_ne_true he
      simp [dropTree, he, lookupF, hne, ih]
    · simp [dropTree, he, lookupF, ih]

theorem getFile_removeTree_isPref (fs : FS) (tmp p : Path)
    (h : isPref tmp p = true) : getFile (removeTree fs tmp) p = none :=
  lookupF_dropTree_isPref fs.files tmp p h

theorem getFile_removeTree_not (fs : FS) (tmp p : Path)
    (h : isPref tmp p = false) : getFile (removeTree fs tmp) p = getFile fs p :=
  lookupF_dropTree_not fs.files tmp p h

theorem not_mem_dropDirs (l : List Path) (tmp p : Path)
    (h : isPref tmp p = true) : p ∉ dropDirs l tmp := by
  induction l with
  | nil => simp [dropDirs]
  | cons d rest ih =>
    by_cases hd : isPref tmp d = true
    · simpa [dropDirs, hd] using ih
    · have hne : p ≠ d := by
        intro hc
        rw [← hc, h] at hd
        exact hd rfl
      simp [dropDirs, hd, hne, ih]

theorem not_mem_removeTree_dirs (fs : FS) (tmp p : Path)
    (h : isPref tmp p = true) : p ∉ (removeTree fs tmp).dirs :=
  not_mem_dropDirs fs.dirs tmp p h

/-! ### Lemmas about directory creation -/

theorem files_addDir (fs : FS) (p : Path) : (addDir fs p).files = fs.files := by
  by_cases h : p ∈ fs.dirs <;> simp [addDir, h]

theorem files_foldl_addDir (l : List Path) (fs : FS) :
    (l.foldl addDir fs).files = fs.files := by
  induction l generalizing fs with
  | nil => rfl
  | cons q rest ih => rw [List.foldl_cons, ih, files_addDir]

theorem files_makedirs (fs : FS) (p : Path) : (makedirs fs p).files = fs.files :=
  files_foldl_addDir (initsP p) fs

theorem getFile_makedirs (fs : FS) (p q : Path) :
    getFile (makedirs fs p) q = getFile fs q := by
  simp [getFile, files_makedirs]

theorem mem_addDir_self (fs : FS) (p : Path) : p ∈ (addDir fs p).dirs := by
  by_cases h : p ∈ fs.dirs <;> simp [addDir, h]

theorem mem_addDir_mono (fs : FS) (p d : Path) (h : d ∈ fs.dirs) :
    d ∈ (addDir fs p).dirs := by
  by_cases hp : p ∈ fs.dirs <;> simp [addDir, hp, h]

theorem mem_foldl_addDir_mono (l : List Path) (fs : FS) (d : Path)
    (h : d ∈ fs.dirs) : d ∈ (l.foldl addDir fs).dirs := by
  induction l generalizing fs with
  | nil => exact h
  | cons q rest ih => exact ih (addDir fs q) (mem_addDir_mono fs q d h)

theorem mem_foldl_addDir_self (l : List Path) (fs : FS) (q : Path)
    (h : q ∈ l) : q ∈ (l.foldl addDir fs).dirs := by
  induction l generalizing fs with
  | nil => cases h
  | cons x rest ih =>
    rcases List.mem_cons.mp h with h1 | h1
    · subst h1
      exact mem_foldl_addDir_mono rest (addDir fs q) q (mem_addDir_self fs q)
    · exact ih (addDir fs x) h1

theorem mem_makedirs_self (fs : FS) (p q : Path) (h : q ∈ initsP p) :
    q ∈ (makedirs fs p).dirs :=
  mem_foldl_addDir_self (initsP p) fs q h

theorem mem_makedirs_mono (fs : FS) (p d : Path) (h : d ∈ fs.dirs) :
    d ∈ (makedirs fs p).dirs :=
  mem_foldl_addDir_mono (initsP p) fs d h

theorem self_mem_initsP (p : Path) : p ∈ initsP p := by
  induction p with
  | nil => simp [initsP]
  | cons x xs ih => simp [initsP, ih]

theorem foldl_addDir_of_mem (l : List Path) (fs : FS)
    (h : ∀ q ∈ l, q ∈ fs.dirs) : l.foldl addDir fs = fs := by
  induction l with
  | nil => rfl
  | cons x rest ih =>
    have hx : x ∈ fs.dirs := h x (List.mem_cons_self x rest)
    rw [List.foldl_cons, addDir, if_pos hx]
    exact ih (fun q hq => h q (List.mem_cons_of_mem x hq))

theorem makedirs_idem (fs : FS) (p : Path) :
    makedirs (makedirs fs p) p = makedirs fs p :=
  foldl_addDir_of_mem (initsP p) (makedirs fs p)
    (fun q hq => mem_makedirs_self fs p q hq)

theorem mkdir_ok (fs fs' : FS) (p : Path) (h : mkdir fs p = Except.ok fs') :
    fs'.files = fs.files ∧ fs'.dirs = p :: fs.dirs := by
  unfold mkdir at h
  by_cases h1 : p ∈ fs.dirs ∨ (getFile fs p).isSome = true
  · rw [if_pos h1] at h
    cases h
  · rw [if_neg h1] at h
    by_cases h2 : p.dropLast ∈ fs.dirs
    · rw [if_pos h2] at h
      cases h
      exact ⟨rfl, rfl⟩
    · rw [if_neg h2] at h
      cases h

theorem copy_ok (fs fs' : FS) (src dst : Path) (h : copy fs src dst = Except.ok fs') :
    ∃ c, getFile fs src = some c ∧ dst.dropLast ∈ fs.dirs ∧ fs' = setFile fs dst c := by
  unfold copy at h
  split at h
  · cases h
  · split at h
    · cases h
      rename_i c hg hd
      exact ⟨c, hg, hd, rfl⟩
    · cases h

theorem getFile_eq_of_files_eq (fs1 fs2 : FS) (h : fs1.files = fs2.files) (p : Path) :
    getFile fs1 p = getFile fs2 p := by
  simp [getFile, h]

theorem ne_staging (tmp p : Path) (x : String) (h : isPref tmp p = false) (l : Path) :
    p ≠ (tmp ++ [x]) ++ l := by
  rw [List.append_assoc]
  exact ne_of_isPref_false ([x] ++ l) h

theorem stagingA_ne_stagingB (tmp l l' : Path) :
    (tmp ++ [strA]) ++ l ≠ (tmp ++ [strB]) ++ l' := by
  rw [List.append_assoc, List.append_assoc]
  exact append_cons_ne_append_cons tmp l l' (by decide)

theorem append_left_cancelP (t : Path) {x y : Path} (h : t ++ x = t ++ y) : x = y := by
  induction t with
  | nil => exact h
  | cons z zs ih =>
    apply ih
    simpa using h

/-! ### Claim theorems: enumeration -/

/-- C4: when one root is a plain file and the other a directory, the
operation fails at once with the mismatch error naming the file side and
the directory side, leaving the filesystem untouched (so no staging
directory was created and no file was copied) and printing nothing. -/
theorem c4_root_kind_mismatch_fails_first (fs : FS) (a b : Path) (dcode : Nat)
    (dout : List Char) (tool : FS → FS × Except Err Int) (tmp : Path)
    (h : (isfile fs a = true ∧ isfile fs b = false ∧ b ∈ fs.dirs) ∨
         (isfile fs a = false ∧ a ∈ fs.dirs ∧ isfile fs b = true)) :
    dirextdiff fs a b dcode dout tool tmp =
      ⟨some (if isfile fs a then Err.fileButDir a b else Err.dirButFile a b),
       fs, []⟩ := by
  rcases h with ⟨h1, h2, _⟩ | ⟨h1, _, h2⟩
  · simp [dirextdiff, enumerate, h1, h2]
  · simp [dirextdiff, enumerate, h1, h2]

/-- C5: with two directory roots, comparator exit status 1 ("differences
found") is the expected outcome and its output is parsed; any other
non-zero status aborts the whole operation with a comparison failure,
leaving the filesystem untouched (no staging directory, no copies). -/
theorem c5_comparator_status_handling (fs : FS) (a b : Path) (dcode : Nat)
    (dout : List Char) (tool : FS → FS × Except Err Int) (tmp : Path)
    (hfa : isfile fs a = false) (hfb : isfile fs b = false)
    (_hda : a ∈ fs.dirs) (_hdb : b ∈ fs.dirs) :
    enumerate fs a b 1 dout = Except.ok (parseLines a b (splitNl dout)) ∧
    (dcode ≠ 0 → dcode ≠ 1 →
      dirextdiff fs a b dcode dout tool tmp =
        ⟨some (Err.comparisonFailure dcode), fs, []⟩) := by
  constructor
  · simp [enumerate, hfa, hfb]
  · intro h0 h1
    simp [dirextdiff, enumerate, hfa, hfb, h0, h1]

/-- C7: when both roots are plain files, enumeration yields exactly one
changed-file entry — the pair itself, with the relative paths equal to the
bare base names of `a` and `b` — and prints nothing. -/
theorem c7_plain_files_single_entry (fs : FS) (a b : Path) (dcode : Nat)
    (dout : List Char) (hfa : isfile fs a = true) (hfb : isfile fs b = true) :
    enumerate fs a b dcode dout =
      Except.ok ([⟨a, b, [a.getLastD ("")], [b.getLastD ("")]⟩], []) := by
  simp [enumerate, hfa, hfb, abspath]

/-- C10: when neither root is a plain file — including when one or both do
not exist — no root-kind-mismatch error is raised: enumeration goes to the
recursive comparator, succeeding on status 0 or 1 and failing only with a
comparison failure otherwise. -/
theorem c10_nonfile_roots_go_to_comparator (fs : FS) (a b : Path) (dcode : Nat)
    (dout : List Char) (hfa : isfile fs a = false) (hfb : isfile fs b = false) :
    enumerate fs a b dcode dout =
      (if dcode = 0 ∨ dcode = 1 then Except.ok (parseLines a b (splitNl dout))
       else Except.error (Err.comparisonFailure dcode)) ∧
    (∀ x y, enumerate fs a b dcode dout ≠ Except.error (Err.fileButDir x y) ∧
            enumerate fs a b dcode dout ≠ Except.error (Err.dirButFile x y)) := by
  have h : enumerate fs a b dcode dout =
      (if dcode = 0 ∨ dcode = 1 then Except.ok (parseLines a b (splitNl dout))
       else Except.error (Err.comparisonFailure dcode)) := by
    simp [enumerate, hfa, hfb]
  refine ⟨h, fun x y => ?_⟩
  rw [h]
  by_cases hc : dcode = 0 ∨ dcode = 1 <;> simp [hc]

/-- C6: each comparator output line matching the differ pattern becomes a
changed-file entry built from its two groups (absolute paths plus paths
relative to roots `a` and `b`, as `mkEntry` records), and every
non-matching line is passed through to the printed informational output
and contributes no entry. -/
theorem c6_differ_line_parsing (a b : Path) (lines : List (List Char)) :
    (parseLines a b lines).1 =
      lines.filterMap (fun l => (reMatchFilesDiffer l).map
        (fun g => mkEntry a b g.1 g.2)) ∧
    (parseLines a b lines).2 =
      lines.filter (fun l => (reMatchFilesDiffer l).isNone) := by
  induction lines with
  | nil => exact ⟨rfl, rfl⟩
  | cons l ls ih =>
    cases hm : reMatchFilesDiffer l with
    | none =>
      simp [parseLines, hm, List.filterMap_cons, List.filter_cons, ih.1, ih.2]
    | some g =>
      simp [parseLines, hm, List.filterMap_cons, List.filter_cons, ih.1, ih.2]

/-! ### Claim theorems: path mapping and staging -/

theorem dropLast_appendP (l m : Path) (h : m ≠ []) :
    (l ++ m).dropLast = l ++ m.dropLast := by
  cases m with
  | nil => exact absurd rfl h
  | cons y ys => exact List.dropLast_append_cons

/-- C8: the staging destination directory of an entry is the parent of its
relative path (a function of the relative path alone appended to the
staging root); `makedirs` creates it with all intermediate levels while
keeping every already-existing directory and is idempotent (an existing
level is never an error, `makedirs` being total); and `materializeEntry`
performs both `makedirs` calls before the copies, so at copy time both
destination directories exist. -/
theorem c8_destination_dirs_before_copy (fs : FS) (atmp btmp : Path) (e : Entry)
    (ha : e.arel ≠ []) (hb : e.brel ≠ []) :
    (atmp ++ e.arel).dropLast = atmp ++ e.arel.dropLast ∧
    (btmp ++ e.brel).dropLast = btmp ++ e.brel.dropLast ∧
    (∀ q ∈ initsP ((atmp ++ e.arel).dropLast),
      q ∈ (makedirs fs ((atmp ++ e.arel).dropLast)).dirs) ∧
    (∀ d ∈ fs.dirs, d ∈ (makedirs fs ((atmp ++ e.arel).dropLast)).dirs) ∧
    makedirs (makedirs fs ((atmp ++ e.arel).dropLast)) ((atmp ++ e.arel).dropLast) =
      makedirs fs ((atmp ++ e.arel).dropLast) ∧
    materializeEntry atmp btmp fs e =
      (match copy (makedirs (makedirs fs ((atmp ++ e.arel).dropLast))
                    ((btmp ++ e.brel).dropLast)) e.afile (atmp ++ e.arel) with
       | Except.error er =>
         (makedirs (makedirs fs ((atmp ++ e.arel).dropLast))
           ((btmp ++ e.brel).dropLast), some er)
       | Except.ok fs3 =>
         match copy fs3 e.bfile (btmp ++ e.brel) with
         | Except.error er => (fs3, some er)
         | Except.ok fs4 => (fs4, none)) ∧
    (atmp ++ e.arel).dropLast ∈
      (makedirs (makedirs fs ((atmp ++ e.arel).dropLast))
        ((btmp ++ e.brel).dropLast)).dirs ∧
    (btmp ++ e.brel).dropLast ∈
      (makedirs (makedirs fs ((atmp ++ e.arel).dropLast))
        ((btmp ++ e.brel).dropLast)).dirs := by
  refine ⟨dropLast_appendP atmp e.arel ha, dropLast_appendP btmp e.brel hb,
    fun q hq => mem_makedirs_self fs _ q hq,
    fun d hd => mem_makedirs_mono fs _ d hd,
    makedirs_idem fs _, rfl, ?_, ?_⟩
  · exact mem_makedirs_mono _ _ _
      (mem_makedirs_self fs _ _ (self_mem_initsP _))
  · exact mem_makedirs_self _ _ _ (self_mem_initsP _)

/-! ### Claim theorems: cleanup and sync-back -/

theorem dirextdiff_fs_is_removeTree (fs : FS) (a b : Path) (dcode : Nat)
    (dout : List Char) (tool : FS → FS × Except Err Int) (tmp : Path)
    (h : isOkB (enumerate fs a b dcode dout) = true) :
    ∃ g, (dirextdiff fs a b dcode dout tool tmp).fs = removeTree g tmp := by
  unfold dirextdiff
  cases henum : enumerate fs a b dcode dout with
  | error e => rw [henum] at h; simp [isOkB] at h
  | ok cp =>
    obtain ⟨changed, printed⟩ := cp
    simp only []
    cases h1 : mkdir (addDir fs tmp) (tmp ++ [strA]) with
    | error e => exact ⟨_, rfl⟩
    | ok fs2 =>
      simp only []
      cases h2 : mkdir fs2 (tmp ++ [strB]) with
      | error e => exact ⟨_, rfl⟩
      | ok fs3 =>
        simp only []
        cases h3 : materialize (tmp ++ [strA]) (tmp ++ [strB]) fs3 changed with
        | mk fs4 oe =>
          cases oe with
          | some e => exact ⟨_, rfl⟩
          | none =>
            simp only []
            cases h4 : tool fs4 with
            | mk fs5 res =>
              cases res with
              | error e => exact ⟨_, rfl⟩
              | ok st =>
                simp only []
                cases h5 : syncBack (tmp ++ [strA]) (tmp ++ [strB]) fs5 changed with
                | mk fs6 oe2 =>
                  cases oe2 with
                  | some e => exact ⟨_, rfl⟩
                  | none => exact ⟨_, rfl⟩

/-- C1: whenever the run reaches the point where the transient staging
root `tmp` is created (enumeration succeeded), the final filesystem of the
run — on every execution path: success, a staging or sync-back failure, a
tool launch failure, or any tool exit status — contains no file and no
directory at `tmp` or below it. -/
theorem c1_staging_root_always_removed (fs : FS) (a b : Path) (dcode : Nat)
    (dout : List Char) (tool : FS → FS × Except Err Int) (tmp : Path)
    (h : isOkB (enumerate fs a b dcode dout) = true) :
    ∀ p, isPref tmp p = true →
      getFile (dirextdiff fs a b dcode dout tool tmp).fs p = none ∧
      p ∉ (dirextdiff fs a b dcode dout tool tmp).fs.dirs := by
  intro p hp
  obtain ⟨g, hg⟩ := dirextdiff_fs_is_removeTree fs a b dcode dout tool tmp h
  rw [hg]
  exact ⟨getFile_removeTree_isPref g tmp p hp, not_mem_removeTree_dirs g tmp p hp⟩

/-- C3: once the enumeration, staging and tool phases have completed and
the tool has returned — with any exit status `st`, which the code ignores —
the run is exactly: sync-back over all entries, then teardown of the
staging root applied to the post-sync-back state, with sync-back's error
(if any) propagated. Moreover one sync-back step copies the staged file
over the entry's recorded original absolute path, overwriting it with the
staged contents whether or not they changed. -/
theorem c3_syncback_unconditional_before_teardown (fs : FS) (a b : Path)
    (dcode : Nat) (dout : List Char) (tmp : Path)
    (tool : FS → FS × Except Err Int) (changed : List Entry)
    (printed : List (List Char)) (fs2 fs3 fs4 fs5 : FS) (st : Int)
    (henum : enumerate fs a b dcode dout = Except.ok (changed, printed))
    (h1 : mkdir (addDir fs tmp) (tmp ++ [strA]) = Except.ok fs2)
    (h2 : mkdir fs2 (tmp ++ [strB]) = Except.ok fs3)
    (h3 : materialize (tmp ++ [strA]) (tmp ++ [strB]) fs3 changed = (fs4, none))
    (h4 : tool fs4 = (fs5, Except.ok st)) :
    dirextdiff fs a b dcode dout tool tmp =
      ⟨(syncBack (tmp ++ [strA]) (tmp ++ [strB]) fs5 changed).2,
       removeTree (syncBack (tmp ++ [strA]) (tmp ++ [strB]) fs5 changed).1 tmp,
       printed⟩ ∧
    (∀ (g : FS) (e : Entry) (ca cb : Content),
      getFile g ((tmp ++ [strA]) ++ e.arel) = some ca →
      getFile g ((tmp ++ [strB]) ++ e.brel) = some cb →
      e.afile.dropLast ∈ g.dirs → e.bfile.dropLast ∈ g.dirs →
      isPref tmp e.afile = false →
      syncBackEntry (tmp ++ [strA]) (tmp ++ [strB]) g e =
        (setFile (setFile g e.afile ca) e.bfile cb, none) ∧
      getFile (setFile (setFile g e.afile ca) e.bfile cb) e.bfile = some cb ∧
      (e.afile ≠ e.bfile →
        getFile (setFile (setFile g e.afile ca) e.bfile cb) e.afile = some ca)) := by
  constructor
  · unfold dirextdiff
    rw [henum]
    simp only []
    rw [h1]
    simp only []
    rw [h2]
    simp only []
    rw [h3]
    simp only []
    rw [h4]
    simp only []
    cases h5 : syncBack (tmp ++ [strA]) (tmp ++ [strB]) fs5 changed with
    | mk fs6 oe => cases oe <;> rfl
  · intro g e ca cb hca hcb hpda hpdb hnp
    have hcopy1 : copy g ((tmp ++ [strA]) ++ e.arel) e.afile =
        Except.ok (setFile g e.afile ca) := by
      unfold copy
      rw [hca]
      simp only []
      rw [if_pos hpda]
    have hg2 : getFile (setFile g e.afile ca) ((tmp ++ [strB]) ++ e.brel) =
        some cb := by
      rw [getFile_setFile, if_neg (ne_staging tmp e.afile strB hnp e.brel)]
      exact hcb
    have hcopy2 : copy (setFile g e.afile ca) ((tmp ++ [strB]) ++ e.brel) e.bfile =
        Except.ok (setFile (setFile g e.afile ca) e.bfile cb) := by
      unfold copy
      rw [hg2]
      simp only [dirs_setFile]
      rw [if_pos hpdb]
    refine ⟨?_, ?_, ?_⟩
    · unfold syncBackEntry
      rw [hcopy1]
      simp only []
      rw [hcopy2]
    · rw [getFile_setFile, if_pos rfl]
    · intro hne
      rw [getFile_setFile, if_neg (fun hc => hne hc.symm),
        getFile_setFile, if_pos rfl]

/-- C9 (amended): a failing sync-back copy aborts the sync-back loop at
the first failing entry — the remaining entries are not attempted and the
failure propagates with the state reached so far. -/
theorem c9_sync_failure_aborts (atmp btmp : Path) (g g1 : FS) (e : Entry)
    (rest : List Entry) (er : Err)
    (h : syncBackEntry atmp btmp g e = (g1, some er)) :
    syncBack atmp btmp g (e :: rest) = (g1, some er) := by
  unfold syncBack
  rw [h]

/-- C9 (counterexample): in the `c9fs` scenario the tool deletes the
staged `a`-side copy of `f` and edits the staged `b`-side copy of `g` to
`[9]`. The first sync-back copy fails, and contrary to the claim the
operation does not attempt to sync back the other staged file: the whole
run ends with `B/g` still at its original contents `[4]`, although at
sync-back time the staged copy of `g` held `[9]` and syncing entry `g`
alone would have succeeded and written `[9]` to `B/g`. -/
theorem c9_counterexample_first_failure_skips_rest :
    enumerate c9fs ["A"] ["B"] 1 c9dout = Except.ok ([c9e1, c9e2], []) ∧
    (dirextdiff c9fs ["A"] ["B"] 1 c9dout c9tool ["T"]).err =
      some (Err.copyFail (["T", strA, "f"]) (["A", "f"])) ∧
    getFile (dirextdiff c9fs ["A"] ["B"] 1 c9dout c9tool ["T"]).fs ["B", "g"] =
      some [4] ∧
    (runToTool c9fs ["A"] ["B"] 1 c9dout c9tool ["T"]).map
      (fun g => getFile g ["T", strB, "g"]) = some (some [9]) ∧
    (runToTool c9fs ["A"] ["B"] 1 c9dout c9tool ["T"]).map
      (fun g => (syncBack ["T", strA] ["T", strB] g [c9e1, c9e2]).2) =
      some (some (Err.copyFail (["T", strA, "f"]) (["A", "f"]))) ∧
    (runToTool c9fs ["A"] ["B"] 1 c9dout c9tool ["T"]).map
      (fun g => getFile (syncBack ["T", strA] ["T", strB] g [c9e1, c9e2]).1
        ["B", "g"]) = some (some [4]) ∧
    (runToTool c9fs ["A"] ["B"] 1 c9dout c9tool ["T"]).map
      (fun g => (syncBackEntry ["T", strA] ["T", strB] g c9e2).2) = some none ∧
    (runToTool c9fs ["A"] ["B"] 1 c9dout c9tool ["T"]).map
      (fun g => getFile (syncBackEntry ["T", strA] ["T", strB] g c9e2).1
        ["B", "g"]) = some (some [9]) :=
  ⟨rfl, rfl, rfl, rfl, rfl, rfl, rfl, rfl⟩

/-! ### Lemmas for the no-op round trip (C2) -/

theorem getFile_mk2 (g : FS) (d1 d2 p : Path) :
    getFile (makedirs (makedirs g d1) d2) p = getFile g p := by
  rw [getFile_makedirs, getFile_makedirs]

theorem materializeEntry_ok (atmp btmp : Path) (g g1 : FS) (e : Entry)
    (hme : materializeEntry atmp btmp g e = (g1, none)) :
    ∃ ca cb, getFile g e.afile = some ca ∧
      getFile (setFile (makedirs (makedirs g ((atmp ++ e.arel).dropLast))
        ((btmp ++ e.brel).dropLast)) (atmp ++ e.arel) ca) e.bfile = some cb ∧
      g1 = setFile (setFile (makedirs (makedirs g ((atmp ++ e.arel).dropLast))
        ((btmp ++ e.brel).dropLast)) (atmp ++ e.arel) ca) (btmp ++ e.brel) cb := by
  unfold materializeEntry at hme
  cases hc1 : copy (makedirs (makedirs g ((atmp ++ e.arel).dropLast))
      ((btmp ++ e.brel).dropLast)) e.afile (atmp ++ e.arel) with
  | error er =>
    rw [hc1] at hme
    simp only [Prod.mk.injEq] at hme
    exact absurd hme.2 (by simp)
  | ok fs3 =>
    rw [hc1] at hme
    simp only [] at hme
    obtain ⟨ca, hca, _, hfs3⟩ := copy_ok _ _ _ _ hc1
    cases hc2 : copy fs3 e.bfile (btmp ++ e.brel) with
    | error er =>
      rw [hc2] at hme
      simp only [Prod.mk.injEq] at hme
      exact absurd hme.2 (by simp)
    | ok fs4 =>
      rw [hc2] at hme
      simp only [Prod.mk.injEq] at hme
      obtain ⟨cb, hcb, _, hfs4⟩ := copy_ok _ _ _ _ hc2
      subst hfs3
      rw [getFile_mk2] at hca
      refine ⟨ca, cb, hca, hcb, ?_⟩
      rw [← hme.1, hfs4]

theorem materializeEntry_writes (atmp btmp : Path) (g g1 : FS) (e : Entry)
    (oe : Option Err) (hme : materializeEntry atmp btmp g e = (g1, oe))
    (p : Path) (hp1 : p ≠ atmp ++ e.arel) (hp2 : p ≠ btmp ++ e.brel) :
    getFile g1 p = getFile g p := by
  unfold materializeEntry at hme
  cases hc1 : copy (makedirs (makedirs g ((atmp ++ e.arel).dropLast))
      ((btmp ++ e.brel).dropLast)) e.afile (atmp ++ e.arel) with
  | error er =>
    rw [hc1] at hme
    simp only [Prod.mk.injEq] at hme
    rw [← hme.1, getFile_mk2]
  | ok fs3 =>
    rw [hc1] at hme
    simp only [] at hme
    obtain ⟨ca, _, _, hfs3⟩ := copy_ok _ _ _ _ hc1
    have hg3 : getFile fs3 p = getFile g p := by
      rw [hfs3, getFile_setFile, if_neg (fun hc => hp1 hc.symm), getFile_mk2]
    cases hc2 : copy fs3 e.bfile (btmp ++ e.brel) with
    | error er =>
      rw [hc2] at hme
      simp only [Prod.mk.injEq] at hme
      rw [← hme.1]
      exact hg3
    | ok fs4 =>
      rw [hc2] at hme
      simp only [Prod.mk.injEq] at hme
      obtain ⟨cb, _, _, hfs4⟩ := copy_ok _ _ _ _ hc2
      rw [← hme.1, hfs4, getFile_setFile, if_neg (fun hc => hp2 hc.symm)]
      exact hg3

theorem materialize_writes (atmp btmp : Path) :
    ∀ (es : List Entry) (g g' : FS), materialize atmp btmp g es = (g', none) →
    ∀ p, (∀ e ∈ es, p ≠ atmp ++ e.arel ∧ p ≠ btmp ++ e.brel) →
    getFile g' p = getFile g p := by
  intro es
  induction es with
  | nil =>
    intro g g' h p _
    simp only [materialize, Prod.mk.injEq] at h
    rw [← h.1]
  | cons e rest ih =>
    intro g g' h p hp
    simp only [materialize] at h
    cases hme : materializeEntry atmp btmp g e with
    | mk g1 oe =>
      rw [hme] at h
      cases oe with
      | some er =>
        simp only [Prod.mk.injEq] at h
        exact absurd h.2 (by simp)
      | none =>
        simp only [] at h
        have h1 := ih g1 g' h p (fun e' he' => hp e' (List.mem_cons_of_mem e he'))
        have h2 := materializeEntry_writes atmp btmp g g1 e none hme p
          (hp e (List.mem_cons_self e rest)).1 (hp e (List.mem_cons_self e rest)).2
        rw [h1, h2]

theorem materialize_staged (atmp btmp : Path)
    (hdiff : ∀ l l', atmp ++ l ≠ btmp ++ l') :
    ∀ (es : List Entry) (g g' : FS), materialize atmp btmp g es = (g', none) →
    (es.map Entry.arel).Nodup → (es.map Entry.brel).Nodup →
    (∀ e ∈ es, (∀ l, e.afile ≠ atmp ++ l) ∧ (∀ l, e.afile ≠ btmp ++ l) ∧
               (∀ l, e.bfile ≠ atmp ++ l) ∧ (∀ l, e.bfile ≠ btmp ++ l)) →
    ∀ e ∈ es, getFile g' (atmp ++ e.arel) = getFile g e.afile ∧
              getFile g' (btmp ++ e.brel) = getFile g e.bfile := by
  intro es
  induction es with
  | nil =>
    intro g g' _ _ _ _ e he
    cases he
  | cons e0 rest ih =>
    intro g g' h hna hnb hsrc e he
    simp only [materialize] at h
    cases hme : materializeEntry atmp btmp g e0 with
    | mk g1 oe =>
      rw [hme] at h
      cases oe with
      | some er =>
        simp only [Prod.mk.injEq] at h
        exact absurd h.2 (by simp)
      | none =>
        simp only [] at h
        obtain ⟨ca, cb, hrca, hrcb, hg1⟩ := materializeEntry_ok atmp btmp g g1 e0 hme
        have hg1a : getFile g1 (atmp ++ e0.arel) = getFile g e0.afile := by
          rw [hg1, getFile_setFile,
            if_neg (fun hc => hdiff e0.arel e0.brel hc.symm),
            getFile_setFile, if_pos rfl, hrca]
        have hg1b : getFile g1 (btmp ++ e0.brel) = getFile g e0.bfile := by
          have hbf : getFile (setFile (makedirs (makedirs g
              ((atmp ++ e0.arel).dropLast)) ((btmp ++ e0.brel).dropLast))
              (atmp ++ e0.arel) ca) e0.bfile = getFile g e0.bfile := by
            rw [getFile_setFile,
              if_neg (fun hc =>
                ((hsrc e0 (List.mem_cons_self e0 rest)).2.2.1 e0.arel) hc.symm),
              getFile_mk2]
          rw [hg1, getFile_setFile, if_pos rfl, ← hrcb, hbf]
        have hg1off : ∀ q, (∀ l, q ≠ atmp ++ l) → (∀ l, q ≠ btmp ++ l) →
            getFile g1 q = getFile g q := by
          intro q hqa hqb
          rw [hg1, getFile_setFile, if_neg (fun hc => (hqb e0.brel) hc.symm),
            getFile_setFile, if_neg (fun hc => (hqa e0.arel) hc.symm), getFile_mk2]
        rcases List.mem_cons.mp he with he0 | hrest
        · subst he0
          constructor
          · rw [materialize_writes atmp btmp rest g1 g' h (atmp ++ e.arel) ?_]
            · exact hg1a
            · intro e' he'
              constructor
              · intro hc
                have := append_left_cancelP atmp hc
                have hmem : e.arel ∈ rest.map Entry.arel :=
                  this ▸ List.mem_map_of_mem Entry.arel he'
                exact (List.nodup_cons.mp hna).1 hmem
              · exact hdiff e.arel e'.brel
          · rw [materialize_writes atmp btmp rest g1 g' h (btmp ++ e.brel) ?_]
            · exact hg1b
            · intro e' he'
              constructor
              · exact fun hc => hdiff e'.arel e.brel hc.symm
              · intro hc
                have := append_left_cancelP btmp hc
                have hmem : e.brel ∈ rest.map Entry.brel :=
                  this ▸ List.mem_map_of_mem Entry.brel he'
                exact (List.nodup_cons.mp hnb).1 hmem
        · have hres := ih g1 g' h (List.nodup_cons.mp hna).2
            (List.nodup_cons.mp hnb).2
            (fun e' he' => hsrc e' (List.mem_cons_of_mem e0 he')) e hrest
          have hsa := (hsrc e (List.mem_cons_of_mem e0 hrest)).1
          have hsb := (hsrc e (List.mem_cons_of_mem e0 hrest)).2.1
          have hsc := (hsrc e (List.mem_cons_of_mem e0 hrest)).2.2.1
          have hsd := (hsrc e (List.mem_cons_of_mem e0 hrest)).2.2.2
          exact ⟨hres.1.trans (hg1off e.afile hsa hsb),
                 hres.2.trans (hg1off e.bfile hsc hsd)⟩

theorem syncBackEntry_ok (atmp btmp : Path) (g g1 : FS) (e : Entry)
    (h : syncBackEntry atmp btmp g e = (g1, none)) :
    ∃ ca cb, getFile g (atmp ++ e.arel) = some ca ∧
      getFile (setFile g e.afile ca) (btmp ++ e.brel) = some cb ∧
      g1 = setFile (setFile g e.afile ca) e.bfile cb := by
  unfold syncBackEntry at h
  cases hc1 : copy g (atmp ++ e.arel) e.afile with
  | error er =>
    rw [hc1] at h
    simp only [Prod.mk.injEq] at h
    exact absurd h.2 (by simp)
  | ok fs1 =>
    rw [hc1] at h
    simp only [] at h
    obtain ⟨ca, hca, _, hfs1⟩ := copy_ok _ _ _ _ hc1
    cases hc2 : copy fs1 (btmp ++ e.brel) e.bfile with
    | error er =>
      rw [hc2] at h
      simp only [Prod.mk.injEq] at h
      exact absurd h.2 (by simp)
    | ok fs2 =>
      rw [hc2] at h
      simp only [Prod.mk.injEq] at h
      obtain ⟨cb, hcb, _, hfs2⟩ := copy_ok _ _ _ _ hc2
      subst hfs1
      exact ⟨ca, cb, hca, hcb, by rw [← h.1, hfs2]⟩

theorem syncBack_keeps (atmp btmp : Path) (base : FS) :
    ∀ (es : List Entry) (g g' : FS), syncBack atmp btmp g es = (g', none) →
    (∀ e ∈ es, (∀ l, e.afile ≠ atmp ++ l) ∧ (∀ l, e.afile ≠ btmp ++ l) ∧
               (∀ l, e.bfile ≠ atmp ++ l) ∧ (∀ l, e.bfile ≠ btmp ++ l)) →
    (∀ e ∈ es, getFile g (atmp ++ e.arel) = getFile base e.afile ∧
               getFile g (btmp ++ e.brel) = getFile base e.bfile) →
    (∀ p, (∀ l, p ≠ atmp ++ l) → (∀ l, p ≠ btmp ++ l) →
      getFile g p = getFile base p) →
    ∀ p, (∀ l, p ≠ atmp ++ l) → (∀ l, p ≠ btmp ++ l) →
      getFile g' p = getFile base p := by
  intro es
  induction es with
  | nil =>
    intro g g' h _ _ hagree p hpa hpb
    simp only [syncBack, Prod.mk.injEq] at h
    rw [← h.1]
    exact hagree p hpa hpb
  | cons e0 rest ih =>
    intro g g' h hsrc hst hagree p hpa hpb
    simp only [syncBack] at h
    cases hse : syncBackEntry atmp btmp g e0 with
    | mk g2 oe =>
      rw [hse] at h
      cases oe with
      | some er =>
        simp only [Prod.mk.injEq] at h
        exact absurd h.2 (by simp)
      | none =>
        simp only [] at h
        obtain ⟨ca, cb, hca, hcb, hg2⟩ := syncBackEntry_ok atmp btmp g g2 e0 hse
        have hs0 := hsrc e0 (List.mem_cons_self e0 rest)
        have hbase_a : getFile base e0.afile = some ca := by
          rw [← (hst e0 (List.mem_cons_self e0 rest)).1, hca]
        have hbase_b : getFile base e0.bfile = some cb := by
          rw [← (hst e0 (List.mem_cons_self e0 rest)).2]
          rw [getFile_setFile, if_neg (fun hc => (hs0.2.1 e0.brel) hc)] at hcb
          rw [hcb]
        have hg2off : ∀ q, getFile g2 q =
            if e0.bfile = q then some cb
            else if e0.afile = q then some ca else getFile g q := by
          intro q
          rw [hg2, getFile_setFile, getFile_setFile]
        have hstage2 : ∀ l, getFile g2 (atmp ++ l) = getFile g (atmp ++ l) := by
          intro l
          rw [hg2off, if_neg (fun hc => (hs0.2.2.1 l) hc),
            if_neg (fun hc => (hs0.1 l) hc)]
        have hstage2b : ∀ l, getFile g2 (btmp ++ l) = getFile g (btmp ++ l) := by
          intro l
          rw [hg2off, if_neg (fun hc => (hs0.2.2.2 l) hc),
            if_neg (fun hc => (hs0.2.1 l) hc)]
        refine ih g2 g' h
          (fun e' he' => hsrc e' (List.mem_cons_of_mem e0 he'))
          (fun e' he' => ?_) (fun q hqa hqb => ?_) p hpa hpb
        · constructor
          · rw [hstage2]
            exact (hst e' (List.mem_cons_of_mem e0 he')).1
          · rw [hstage2b]
            exact (hst e' (List.mem_cons_of_mem e0 he')).2
        · rw [hg2off]
          by_cases hb : e0.bfile = q
          · rw [if_pos hb, ← hb]
            exact hbase_b.symm
          · rw [if_neg hb]
            by_cases ha2 : e0.afile = q
            · rw [if_pos ha2, ← ha2]
              exact hbase_a.symm
            · rw [if_neg ha2]
              exact hagree q hqa hqb

/-- C2: with a no-op external tool (it returns some status without touching
the filesystem), a run that completes without error leaves every file
byte-identical to its pre-operation contents: the stage / invoke /
sync-back / teardown round trip is the identity on file contents. The
hypotheses record that the staging root is fresh, that the enumerated
entries have pairwise-distinct relative paths on each side, and that no
original lives under the staging root — all guaranteed for entries coming
from a real recursive comparison. -/
theorem c2_noop_tool_preserves_originals (fs : FS) (a b : Path) (dcode : Nat)
    (dout : List Char) (tmp : Path) (st : Int)
    (changed : List Entry) (printed : List (List Char))
    (hfresh : ∀ p, isPref tmp p = true → getFile fs p = none)
    (henum : enumerate fs a b dcode dout = Except.ok (changed, printed))
    (hna : (changed.map Entry.arel).Nodup)
    (hnb : (changed.map Entry.brel).Nodup)
    (hno : ∀ e ∈ changed, isPref tmp e.afile = false ∧ isPref tmp e.bfile = false)
    (herr : (dirextdiff fs a b dcode dout (fun s => (s, Except.ok st)) tmp).err
      = none) :
    ∀ p, getFile (dirextdiff fs a b dcode dout
      (fun s => (s, Except.ok st)) tmp).fs p = getFile fs p := by
  intro p
  unfold dirextdiff at herr ⊢
  rw [henum] at herr ⊢
  simp only [] at herr ⊢
  cases h1 : mkdir (addDir fs tmp) (tmp ++ [strA]) with
  | error e =>
    rw [h1] at herr
    simp at herr
  | ok fs2 =>
    rw [h1] at herr
    simp only [] at herr ⊢
    cases h2 : mkdir fs2 (tmp ++ [strB]) with
    | error e =>
      rw [h2] at herr
      simp at herr
    | ok fs3 =>
      rw [h2] at herr
      simp only [] at herr ⊢
      cases h3 : materialize (tmp ++ [strA]) (tmp ++ [strB]) fs3 changed with
      | mk fs4 oe =>
        rw [h3] at herr
        cases oe with
        | some e => simp at herr
        | none =>
          simp only [] at herr ⊢
          cases h5 : syncBack (tmp ++ [strA]) (tmp ++ [strB]) fs4 changed with
          | mk fs6 oe2 =>
            rw [h5] at herr
            cases oe2 with
            | some e => simp at herr
            | none =>
              simp only []
              have hgf3 : ∀ q, getFile fs3 q = getFile fs q := by
                intro q
                have e2 := (mkdir_ok _ _ _ h2).1
                have e1 := (mkdir_ok _ _ _ h1).1
                exact getFile_eq_of_files_eq fs3 fs
                  (by rw [e2, e1, files_addDir]) q
              have hdiff : ∀ l l', (tmp ++ [strA]) ++ l ≠ (tmp ++ [strB]) ++ l' :=
                stagingA_ne_stagingB tmp
              have hsrcs : ∀ e ∈ changed,
                  (∀ l, e.afile ≠ (tmp ++ [strA]) ++ l) ∧
                  (∀ l, e.afile ≠ (tmp ++ [strB]) ++ l) ∧
                  (∀ l, e.bfile ≠ (tmp ++ [strA]) ++ l) ∧
                  (∀ l, e.bfile ≠ (tmp ++ [strB]) ++ l) := by
                intro e he
                exact ⟨ne_staging tmp e.afile strA (hno e he).1,
                       ne_staging tmp e.afile strB (hno e he).1,
                       ne_staging tmp e.bfile strA (hno e he).2,
                       ne_staging tmp e.bfile strB (hno e he).2⟩
              have hst4 : ∀ e ∈ changed,
                  getFile fs4 ((tmp ++ [strA]) ++ e.arel) = getFile fs e.afile ∧
                  getFile fs4 ((tmp ++ [strB]) ++ e.brel) = getFile fs e.bfile := by
                intro e he
                have hs := materialize_staged (tmp ++ [strA]) (tmp ++ [strB])
                  hdiff changed fs3 fs4 h3 hna hnb hsrcs e he
                exact ⟨hs.1.trans (hgf3 e.afile), hs.2.trans (hgf3 e.bfile)⟩
              have hagree4 : ∀ q, (∀ l, q ≠ (tmp ++ [strA]) ++ l) →
                  (∀ l, q ≠ (tmp ++ [strB]) ++ l) →
                  getFile fs4 q = getFile fs q := by
                intro q hqa hqb
                have hw := materialize_writes (tmp ++ [strA]) (tmp ++ [strB])
                  changed fs3 fs4 h3 q
                  (fun e _ => ⟨hqa e.arel, hqb e.brel⟩)
                exact hw.trans (hgf3 q)
              have hkeep := syncBack_keeps (tmp ++ [strA]) (tmp ++ [strB]) fs
                changed fs4 fs6 h5 hsrcs hst4 hagree4
              cases hb : isPref tmp p with
              | true =>
                rw [getFile_removeTree_isPref fs6 tmp p hb]
                exact (hfresh p hb).symm
              | false =>
                rw [getFile_removeTree_not fs6 tmp p hb]
                exact hkeep p (ne_staging tmp p strA hb)
                  (ne_staging tmp p strB hb)

/-! ### Witnesses: each hypothesis-bearing claim theorem applied at a
concrete input -/

/-- Witness for C1 at the `wfs` plain-file run with a no-op tool. -/
theorem c1_witness :
    getFile (dirextdiff wfs ["x"] ["y"] 0 [] noopTool ["T"]).fs ["T"] = none ∧
    ["T"] ∉ (dirextdiff wfs ["x"] ["y"] 0 [] noopTool ["T"]).fs.dirs :=
  c1_staging_root_always_removed wfs ["x"] ["y"] 0 [] noopTool ["T"]
    (by decide) ["T"] (by decide)

/-- Witness for C2: after the no-op run on the `wfs` pair, file `x` has its
original contents. -/
theorem c2_witness :
    getFile (dirextdiff wfs ["x"] ["y"] 0 []
      (fun s => (s, Except.ok 0)) ["T"]).fs ["x"] = getFile wfs ["x"] :=
  c2_noop_tool_preserves_originals wfs ["x"] ["y"] 0 [] ["T"] 0 [wentry] []
    (by
      intro p hp
      cases p with
      | nil => exact absurd hp (by decide)
      | cons x xs =>
        simp only [isPref, Bool.and_eq_true, decide_eq_true_eq] at hp
        obtain ⟨hx, _⟩ := hp
        subst hx
        simp [wfs, getFile, lookupF])
    rfl (by decide) (by decide) (by decide) (by decide) ["x"]

/-- Witness for C3: the `wfs` run with exit status 7 reduces to sync-back
then teardown. -/
theorem c3_witness :
    dirextdiff wfs ["x"] ["y"] 0 [] (fun s => (s, Except.ok 7)) ["T"] =
      ⟨(syncBack (["T"] ++ [strA]) (["T"] ++ [strB]) wfs4 [wentry]).2,
       removeTree (syncBack (["T"] ++ [strA]) (["T"] ++ [strB]) wfs4 [wentry]).1
         ["T"], []⟩ :=
  (c3_syncback_unconditional_before_teardown wfs ["x"] ["y"] 0 [] ["T"]
    (fun s => (s, Except.ok 7)) [wentry] [] wfs2 wfs3 wfs4 wfs4 7
    rfl rfl rfl (by decide) rfl).1

/-- Witness for C4: a file root `x` against a directory root `D`. -/
theorem c4_witness :
    dirextdiff ⟨[(["x"], [1])], [[], ["D"]]⟩ ["x"] ["D"] 0 [] noopTool ["T"] =
      ⟨some (Err.fileButDir ["x"] ["D"]), ⟨[(["x"], [1])], [[], ["D"]]⟩, []⟩ :=
  c4_root_kind_mismatch_fails_first ⟨[(["x"], [1])], [[], ["D"]]⟩ ["x"] ["D"]
    0 [] noopTool ["T"] (by decide)

/-- Witness for C5: comparator status 2 on two directory roots aborts with
a comparison failure and an untouched filesystem. -/
theorem c5_witness :
    dirextdiff ⟨[], [[], ["A"], ["B"]]⟩ ["A"] ["B"] 2 [] noopTool ["T"] =
      ⟨some (Err.comparisonFailure 2), ⟨[], [[], ["A"], ["B"]]⟩, []⟩ :=
  (c5_comparator_status_handling ⟨[], [[], ["A"], ["B"]]⟩ ["A"] ["B"] 2 []
    noopTool ["T"] (by decide) (by decide) (by decide) (by decide)).2
    (by decide) (by decide)

/-- Witness for C7: the `wfs` plain-file pair enumerates to the single
entry with base-name relative paths. -/
theorem c7_witness :
    enumerate wfs ["x"] ["y"] 0 [] =
      Except.ok ([⟨["x"], ["y"], [(["x"] : Path).getLastD ("")],
        [(["y"] : Path).getLastD ("")]⟩], []) :=
  c7_plain_files_single_entry wfs ["x"] ["y"] 0 [] (by decide) (by decide)

/-- Witness for C8: the destination directory of `wentry` on the `a` side
is the staging subtree itself (parent of the one-component relative path). -/
theorem c8_witness :
    ((["T", strA] : Path) ++ wentry.arel).dropLast =
      (["T", strA] : Path) ++ wentry.arel.dropLast :=
  (c8_destination_dirs_before_copy wfs3 ["T", strA] ["T", strB] wentry
    (by decide) (by decide)).1

/-- Witness for the amended C9: a first-entry sync-back failure on an
empty filesystem returns at once, with the second entry untouched. -/
theorem c9_amended_witness :
    syncBack ["T", strA] ["T", strB] ⟨[], []⟩ [c9e1, c9e2] =
      (⟨[], []⟩, some (Err.copyFail ["T", strA, "f"] ["A", "f"])) :=
  c9_sync_failure_aborts ["T", strA] ["T", strB] ⟨[], []⟩ ⟨[], []⟩ c9e1 [c9e2]
    (Err.copyFail ["T", strA, "f"] ["A", "f"]) (by decide)

/-- Witness for C10: two nonexistent roots with comparator status 5 go to
the comparison-failure branch, not a mismatch error. -/
theorem c10_witness :
    enumerate ⟨[], [[]]⟩ ["A"] ["B"] 5 [] =
      (if (5 : Nat) = 0 ∨ (5 : Nat) = 1
       then Except.ok (parseLines ["A"] ["B"] (splitNl []))
       else Except.error (Err.comparisonFailure 5)) :=
  (c10_nonfile_roots_go_to_comparator ⟨[], [[]]⟩ ["A"] ["B"] 5 []
    (by decide) (by decide)).1

end Dirextdiff
